import Mathlib

/-!
Verification development for the gskills acquisition and consistency engine.

The Go sources are embedded shallowly: pure data manipulation becomes Lean
functions over lists, fallible operations return `Except String`, and the
effects of the filesystem, the network and the interactive prompt are passed
in as explicit oracle values.  Go maps are modelled as association lists
whose key uniqueness is carried as a hypothesis where it matters.
-/

namespace GSkills

/-- Decidable equality for `Except`, so that concrete runs of the embedded
operations can be checked by `decide` in the witnesses below. -/
instance exceptDecEq {ε α : Type} [DecidableEq ε] [DecidableEq α] :
    DecidableEq (Except ε α) := fun x y =>
  match x, y with
  | .ok a, .ok b =>
    if h : a = b then .isTrue (by rw [h])
    else .isFalse (by intro hc; cases hc; exact h rfl)
  | .ok _, .error _ => .isFalse (by intro hc; cases hc)
  | .error _, .ok _ => .isFalse (by intro hc; cases hc)
  | .error e, .error f =>
    if h : e = f then .isTrue (by rw [h])
    else .isFalse (by intro hc; cases hc; exact h rfl)

/-- Information recorded for one project link of a skill
(`types.LinkedProjectInfo`): the symlink path on disk and the link time
(time modelled as a natural number). -/
structure LinkedProjectInfo where
  symlinkPath : String
  linkedAt : Nat
deriving Repr, DecidableEq

/-- One registry record (`types.SkillMetadata`).  The `linkedProjects` Go map
is modelled as an association list from absolute project path to link info. -/
structure SkillMetadata where
  id : String
  name : String
  sourceURL : String
  storePath : String
  updatedAt : Nat
  version : String
  commitSHA : String
  linkedProjects : List (String × LinkedProjectInfo)
deriving Repr, DecidableEq

/-- Validation performed by `registry.validateSkillMetadata`: the identifier,
name, version, source URL and store path must all be non-empty (the Go nil
check has no counterpart for a Lean value). -/
def validateSkillMetadata (skill : SkillMetadata) : Except String Unit :=
  if skill.id = "" then .error "skill ID cannot be empty"
  else if skill.name = "" then .error "skill name cannot be empty"
  else if skill.version = "" then .error "skill version cannot be empty"
  else if skill.sourceURL = "" then .error "skill source URL cannot be empty"
  else if skill.storePath = "" then .error "skill store path cannot be empty"
  else .ok ()

/-- The index map built by `addOrUpdateSkillWithPath`: entries `id -> i` are
inserted in list order, so looking up an id yields the last index holding it. -/
def indexMapLookup (skills : List SkillMetadata) (sid : String) : Option Nat :=
  skills.enum.foldl (fun acc p => if p.2.id = sid then some p.1 else acc) none

/-- `registry.addOrUpdateSkillWithPath`: validate, then replace the record at
the index found for the id, or append a new record.  Loading and saving the
registry file are modelled by the input and output lists; the per-path mutex
makes the whole load-modify-save cycle atomic, which is what lets the cycle
be modelled as one pure function application. -/
def addOrUpdateSkillWithPath (skills : List SkillMetadata) (skill : SkillMetadata) :
    Except String (List SkillMetadata) :=
  match validateSkillMetadata skill with
  | .error e => .error e
  | .ok _ =>
    match indexMapLookup skills skill.id with
    | some idx => .ok (skills.set idx skill)
    | none => .ok (skills ++ [skill])

/-- The search-and-replace loop of `registry.UpdateSkill`: replace the first
record whose id matches, or report that no record matched. -/
def replaceFirstById : List SkillMetadata → SkillMetadata → Option (List SkillMetadata)
  | [], _ => none
  | t :: ts, s =>
    if t.id = s.id then some (s :: ts)
    else (replaceFirstById ts s).map (fun l => t :: l)

/-- `registry.UpdateSkill`: requires a non-empty id and an already-present
record; absence is an explicit error and, because the error is returned
before any save, the registry file is left untouched in that case. -/
def UpdateSkill (skills : List SkillMetadata) (skill : SkillMetadata) :
    Except String (List SkillMetadata) :=
  if skill.id = "" then .error "skill ID cannot be empty"
  else
    match replaceFirstById skills skill with
    | some updated => .ok updated
    | none => .error ("skill with ID not found: " ++ skill.id)

/-- Sequential composition of upserts (`foldlM` over the `Except` monad).
Because every mutating call on one registry path holds that path's mutex for
its whole load-modify-save cycle, any concurrent execution of upserts is an
interleaving of atomic cycles, i.e. a sequential run in some order; the list
argument ranges over every such order. -/
def runUpserts (ops : List SkillMetadata) (init : List SkillMetadata) :
    Except String (List SkillMetadata) :=
  ops.foldlM (fun reg s => addOrUpdateSkillWithPath reg s) init

theorem indexMapLookup_append_singleton (l : List SkillMetadata) (x : SkillMetadata)
    (sid : String) :
    indexMapLookup (l ++ [x]) sid =
      if x.id = sid then some l.length else indexMapLookup l sid := by
  unfold indexMapLookup
  rw [List.enum_append, List.foldl_append]
  simp [List.enumFrom]

theorem indexMapLookup_eq_none_iff (l : List SkillMetadata) (sid : String) :
    indexMapLookup l sid = none ↔ sid ∉ l.map (·.id) := by
  induction l using List.reverseRecOn with
  | nil => simp [indexMapLookup]
  | append_singleton l x ih =>
    rw [indexMapLookup_append_singleton]
    by_cases h : x.id = sid
    · simp [h]
    · simp [h, ih, Ne.symm h]

theorem set_append_left_of_lt {α : Type} (l1 l2 : List α) (k : Nat) (a : α)
    (h : k < l1.length) : (l1 ++ l2).set k a = l1.set k a ++ l2 := by
  induction l1 generalizing k with
  | nil => simp at h
  | cons y ys ih =>
    cases k with
    | zero => simp
    | succ k =>
      simp only [List.cons_append, List.set_cons_succ]
      rw [ih k (by simpa using h)]

theorem set_append_length {α : Type} (l1 : List α) (x a : α) :
    (l1 ++ [x]).set l1.length a = l1 ++ [a] := by
  induction l1 with
  | nil => rfl
  | cons y ys ih => simp [ih]

theorem mapReplace_ids (l : List SkillMetadata) (s : SkillMetadata) :
    (l.map (fun t => if t.id = s.id then s else t)).map (·.id) = l.map (·.id) := by
  induction l with
  | nil => rfl
  | cons t ts ih =>
    by_cases h : t.id = s.id
    · simp [h, ih]
    · simp [h, ih]

theorem indexMapLookup_mem_set (l : List SkillMetadata) (s : SkillMetadata)
    (hnodup : (l.map (·.id)).Nodup) (hmem : s.id ∈ l.map (·.id)) :
    ∃ k, indexMapLookup l s.id = some k ∧ k < l.length ∧
      l.set k s = l.map (fun t => if t.id = s.id then s else t) := by
  induction l using List.reverseRecOn with
  | nil => simp at hmem
  | append_singleton l x ih =>
    have hids : (l ++ [x]).map (·.id) = l.map (·.id) ++ [x.id] := by simp
    rw [hids] at hnodup
    have hnl : (l.map (·.id)).Nodup := (List.nodup_append.mp hnodup).1
    have hdisj : x.id ∉ l.map (·.id) := by
      intro hx
      exact (List.nodup_append.mp hnodup).2.2 hx (by simp)
    by_cases h : x.id = s.id
    · refine ⟨l.length, ?_, ?_, ?_⟩
      · rw [indexMapLookup_append_singleton]; simp [h]
      · simp
      · rw [set_append_length]
        have hl : l.map (fun t => if t.id = s.id then s else t) = l := by
          have : ∀ t ∈ l, (if t.id = s.id then s else t) = t := by
            intro t ht
            have : t.id ≠ s.id := by
              intro he
              exact hdisj (h ▸ he ▸ List.mem_map_of_mem (·.id) ht)
            simp [this]
          calc l.map (fun t => if t.id = s.id then s else t)
              = l.map (fun t => t) := List.map_congr_left this
            _ = l := List.map_id l
        simp [hl, h]
    · have hmeml : s.id ∈ l.map (·.id) := by
        rw [hids] at hmem
        rcases List.mem_append.mp hmem with h1 | h1
        · exact h1
        · have h2 : s.id = x.id := by simpa using h1
          exact absurd h2.symm h
      obtain ⟨k, hk, hklt, hset⟩ := ih hnl hmeml
      refine ⟨k, ?_, ?_, ?_⟩
      · rw [indexMapLookup_append_singleton]; simp [h, hk]
      · simp only [List.length_append, List.length_singleton]; omega
      · rw [set_append_left_of_lt _ _ _ _ hklt, hset]
        simp [h]

/-- Claim C3: for every registry whose ids are unique and every valid record,
upsert with an already-present id replaces that record in place, leaving the
record count and the id sequence unchanged, while a new id is appended,
growing the count by exactly one; in both cases the ids stay unique. -/
theorem addOrUpdateSkill_upsert (skills : List SkillMetadata) (s : SkillMetadata)
    (hvalid : validateSkillMetadata s = .ok ())
    (hnodup : (skills.map (·.id)).Nodup) :
    (s.id ∈ skills.map (·.id) →
      ∃ out, addOrUpdateSkillWithPath skills s = .ok out ∧
        out = skills.map (fun t => if t.id = s.id then s else t) ∧
        out.length = skills.length ∧
        out.map (·.id) = skills.map (·.id) ∧
        (out.map (·.id)).Nodup) ∧
    (s.id ∉ skills.map (·.id) →
      addOrUpdateSkillWithPath skills s = .ok (skills ++ [s]) ∧
      (skills ++ [s]).length = skills.length + 1 ∧
      ((skills ++ [s]).map (·.id)).Nodup) := by
  constructor
  · intro hmem
    obtain ⟨k, hk, hklt, hset⟩ := indexMapLookup_mem_set skills s hnodup hmem
    refine ⟨skills.set k s, ?_, hset, by simp, ?_, ?_⟩
    · simp [addOrUpdateSkillWithPath, hvalid, hk]
    · rw [hset]; exact mapReplace_ids skills s
    · rw [hset, mapReplace_ids]; exact hnodup
  · intro hmem
    have hnone : indexMapLookup skills s.id = none :=
      (indexMapLookup_eq_none_iff skills s.id).mpr hmem
    refine ⟨by simp [addOrUpdateSkillWithPath, hvalid, hnone], by simp, ?_⟩
    have : (skills ++ [s]).map (·.id) = skills.map (·.id) ++ [s.id] := by simp
    rw [this, List.nodup_append]
    refine ⟨hnodup, List.nodup_singleton _, ?_⟩
    intro a ha hb
    simp at hb
    exact hmem (hb ▸ ha)

/-- A concrete registry record used by the witnesses below. -/
def skillA : SkillMetadata :=
  { id := "owner/repo/skills/alpha@main", name := "alpha"
    sourceURL := "https://github.com/owner/repo/tree/main/skills/alpha"
    storePath := "/home/u/.gskills/skills/alpha", updatedAt := 0
    version := "1.0.0", commitSHA := "sha1", linkedProjects := [] }

/-- A second record carrying the same id as `skillA` but a new commit. -/
def skillA2 : SkillMetadata := { skillA with commitSHA := "sha2", updatedAt := 1 }

/-- A record with an id distinct from `skillA`. -/
def skillB : SkillMetadata :=
  { id := "owner/repo/skills/beta@main", name := "beta"
    sourceURL := "https://github.com/owner/repo/tree/main/skills/beta"
    storePath := "/home/u/.gskills/skills/beta", updatedAt := 0
    version := "1.0.0", commitSHA := "shab", linkedProjects := [] }

theorem addOrUpdateSkill_upsert_witness :
    ∃ out, addOrUpdateSkillWithPath [skillA, skillB] skillA2 = .ok out ∧
      out = [skillA, skillB].map
        (fun t => if t.id = skillA2.id then skillA2 else t) ∧
      out.length = [skillA, skillB].length ∧
      out.map (·.id) = [skillA, skillB].map (·.id) ∧
      (out.map (·.id)).Nodup :=
  (addOrUpdateSkill_upsert [skillA, skillB] skillA2 (by decide) (by decide)).1
    (by decide)

theorem replaceFirstById_eq_none_iff (l : List SkillMetadata) (s : SkillMetadata) :
    replaceFirstById l s = none ↔ s.id ∉ l.map (·.id) := by
  induction l with
  | nil => simp [replaceFirstById]
  | cons t ts ih =>
    by_cases h : t.id = s.id
    · simp [replaceFirstById, h]
    · simp [replaceFirstById, h, ih, Ne.symm h]

theorem replaceFirstById_ok (l : List SkillMetadata) (s : SkillMetadata)
    (out : List SkillMetadata) (h : replaceFirstById l s = some out) :
    s.id ∈ l.map (·.id) ∧ out.length = l.length := by
  induction l generalizing out with
  | nil => simp [replaceFirstById] at h
  | cons t ts ih =>
    by_cases ht : t.id = s.id
    · simp only [replaceFirstById, if_pos ht] at h
      cases h
      exact ⟨by simp [ht.symm], by simp⟩
    · simp only [replaceFirstById, if_neg ht] at h
      rcases Option.map_eq_some'.mp h with ⟨out2, h2, rfl⟩
      obtain ⟨hm, hl⟩ := ih out2 h2
      exact ⟨by simp [hm], by simp [hl]⟩

/-- Claim C4: updating a record whose id is absent from the registry yields an
explicit not-found error (and since the error is produced before any save, the
registry file is untouched), and an update can only ever succeed when the id
was already present, never growing the registry: no silent upsert. -/
theorem updateSkill_requires_present (skills : List SkillMetadata) (s : SkillMetadata)
    (hid : s.id ≠ "") (habsent : s.id ∉ skills.map (·.id)) :
    UpdateSkill skills s = .error ("skill with ID not found: " ++ s.id) ∧
    ∀ (l : List SkillMetadata) (t : SkillMetadata) (out : List SkillMetadata),
      UpdateSkill l t = .ok out → t.id ∈ l.map (·.id) ∧ out.length = l.length := by
  constructor
  · have hnone : replaceFirstById skills s = none :=
      (replaceFirstById_eq_none_iff skills s).mpr habsent
    simp [UpdateSkill, hid, hnone]
  · intro l t out h
    by_cases ht : t.id = ""
    · simp [UpdateSkill, ht] at h
    · simp only [UpdateSkill, if_neg ht] at h
      cases hrep : replaceFirstById l t with
      | none => rw [hrep] at h; simp at h
      | some out2 =>
        rw [hrep] at h
        simp at h
        exact h ▸ replaceFirstById_ok l t out2 hrep

theorem updateSkill_requires_present_witness :
    UpdateSkill [skillA] skillB = .error ("skill with ID not found: " ++ skillB.id) ∧
    ∀ (l : List SkillMetadata) (t : SkillMetadata) (out : List SkillMetadata),
      UpdateSkill l t = .ok out → t.id ∈ l.map (·.id) ∧ out.length = l.length :=
  updateSkill_requires_present [skillA] skillB (by decide) (by decide)

theorem runUpserts_append_all (ops : List SkillMetadata) :
    ∀ init : List SkillMetadata,
      (∀ s ∈ ops, validateSkillMetadata s = .ok ()) →
      (∀ s ∈ ops, s.id ∉ init.map (·.id)) →
      (ops.map (·.id)).Nodup →
      runUpserts ops init = .ok (init ++ ops) := by
  induction ops with
  | nil => intro init _ _ _; simp [runUpserts]; rfl
  | cons s rest ih =>
    intro init hvalid hdisj hnodup
    have hcons : (s.id :: rest.map (·.id)).Nodup := by simpa using hnodup
    have hhead : s.id ∉ rest.map (·.id) := (List.nodup_cons.mp hcons).1
    have htail : (rest.map (·.id)).Nodup := (List.nodup_cons.mp hcons).2
    have h1 : addOrUpdateSkillWithPath init s = .ok (init ++ [s]) := by
      have hnone : indexMapLookup init s.id = none :=
        (indexMapLookup_eq_none_iff init s.id).mpr (hdisj s (by simp))
      simp [addOrUpdateSkillWithPath, hvalid s (by simp), hnone]
    have h2 : runUpserts rest (init ++ [s]) = .ok ((init ++ [s]) ++ rest) := by
      refine ih (init ++ [s]) (fun t ht => hvalid t (by simp [ht])) ?_ htail
      intro t ht
      simp only [List.map_append, List.mem_append]
      rintro (hin | hin)
      · exact hdisj t (by simp [ht]) hin
      · simp at hin
        exact hhead (hin ▸ List.mem_map_of_mem (·.id) ht)
    calc runUpserts (s :: rest) init
        = addOrUpdateSkillWithPath init s >>= fun reg => runUpserts rest reg := by
          simp [runUpserts, List.foldlM_cons]
      _ = runUpserts rest (init ++ [s]) := by rw [h1]; rfl
      _ = .ok (init ++ s :: rest) := by rw [h2]; simp

/-- Claim C6: serially composing the upserts of N callers with pairwise
distinct ids, in any order (the per-path registry mutex serializes every
load-modify-save cycle, so each concurrent schedule acts as one such order),
yields a registry holding exactly the N records, none lost. -/
theorem concurrent_upsert_all_ids (ops : List SkillMetadata)
    (hvalid : ∀ s ∈ ops, validateSkillMetadata s = .ok ())
    (hnodup : (ops.map (·.id)).Nodup) :
    ∃ final, runUpserts ops [] = .ok final ∧ final.length = ops.length ∧
      final.map (·.id) = ops.map (·.id) := by
  refine ⟨ops, ?_, rfl, rfl⟩
  have h := runUpserts_append_all ops [] hvalid (by simp) hnodup
  simpa using h

theorem concurrent_upsert_all_ids_witness :
    ∃ final, runUpserts [skillA, skillB] [] = .ok final ∧
      final.length = [skillA, skillB].length ∧
      final.map (·.id) = [skillA, skillB].map (·.id) :=
  concurrent_upsert_all_ids [skillA, skillB] (by decide) (by decide)

/-- Parsed GitHub URL information (`add.GitHubRepoInfo`). -/
structure GitHubRepoInfo where
  owner : String
  repo : String
  branch : String
  path : String
deriving Repr, DecidableEq

/-- `Updater.CheckUpdate`: reject an empty source URL, parse the URL, fetch
the latest commit SHA (`getCommitSHAWithRetry`) and compare it byte-for-byte
with the stored one.  The URL parse (which wraps net/url) and the network
fetch enter as oracle results. -/
def CheckUpdate (skill : SkillMetadata) (parse : Except String GitHubRepoInfo)
    (fetchSHA : Except String String) : Except String (Bool × String) :=
  if skill.sourceURL = "" then .error "skill source URL cannot be empty"
  else
    match parse with
    | .error _ => .error "failed to parse source URL"
    | .ok _ =>
      match fetchSHA with
      | .error _ => .error "failed to fetch latest commit SHA"
      | .ok newSHA =>
        if newSHA = skill.commitSHA then .ok (false, newSHA)
        else .ok (true, newSHA)

/-- Claim C5: for a record with a non-empty source URL whose URL parses and
whose remote fetch succeeds, `CheckUpdate` answers has-update exactly when
the fetched revision differs byte-for-byte from the stored one (an empty
stored revision differs from any non-empty fetched one), and it always hands
back the fetched revision. -/
theorem checkUpdate_iff_revision_differs (skill : SkillMetadata)
    (parse : Except String GitHubRepoInfo) (fetchSHA : Except String String)
    (ri : GitHubRepoInfo) (sha : String)
    (hurl : skill.sourceURL ≠ "") (hp : parse = .ok ri) (hf : fetchSHA = .ok sha) :
    (sha ≠ skill.commitSHA → CheckUpdate skill parse fetchSHA = .ok (true, sha)) ∧
    (sha = skill.commitSHA → CheckUpdate skill parse fetchSHA = .ok (false, sha)) := by
  subst hp hf
  constructor <;> intro h <;> simp [CheckUpdate, hurl, h]

/-- A concrete parsed repository locator used by witnesses. -/
def ri0 : GitHubRepoInfo :=
  { owner := "owner", repo := "repo", branch := "main", path := "skills/alpha" }

theorem checkUpdate_iff_revision_differs_witness :
    CheckUpdate skillA (.ok ri0) (.ok "sha2") = .ok (true, "sha2") :=
  (checkUpdate_iff_revision_differs skillA (.ok ri0) (.ok "sha2") ri0 "sha2"
    (by decide) rfl rfl).1 (by decide)

/-- Statistics returned by `Updater.UpdateAll` (`UpdateStats`; the duration
field is not modelled). -/
structure UpdateStats where
  total : Nat
  updated : Nat
  skipped : Nat
  failed : Nat
deriving Repr, DecidableEq

/-- Whether an `Except` value is a success. -/
def exceptOk {ε α : Type} : Except ε α → Bool
  | .ok _ => true
  | .error _ => false

/-- `Updater.UpdateAll`: start from zeroed counters with `total` set to the
slice length, then count every nil `UpdateSkill` result as updated and every
error as failed.  Each per-skill call result enters as an oracle; goroutine
completion order only permutes the mutex-protected counter increments, which
commute, so the loop is modelled in slice order. -/
def UpdateAll (results : SkillMetadata → Except String Unit)
    (skillsToUpdate : List SkillMetadata) : UpdateStats :=
  skillsToUpdate.foldl
    (fun st s =>
      match results s with
      | .error _ => { st with failed := st.failed + 1 }
      | .ok _ => { st with updated := st.updated + 1 })
    { total := skillsToUpdate.length, updated := 0, skipped := 0, failed := 0 }

/-- `Updater.UpdateSkill`: run the check, return nil when no update is
available, otherwise return the outcome of `downloadAndUpdate` (an oracle). -/
def UpdateSkillRun (skill : SkillMetadata) (parse : Except String GitHubRepoInfo)
    (fetchSHA : Except String String) (download : Except String Unit) :
    Except String Unit :=
  match CheckUpdate skill parse fetchSHA with
  | .error e => .error e
  | .ok (hasUpdate, _) => if hasUpdate then download else .ok ()

theorem countP_add_countP_bnot {α : Type} (p : α → Bool) (l : List α) :
    l.countP p + l.countP (fun a => !(p a)) = l.length := by
  induction l with
  | nil => simp
  | cons a l ih =>
    by_cases h : p a = true <;> simp [List.countP_cons, h] <;> omega

theorem updateAll_foldl (results : SkillMetadata → Except String Unit)
    (skills : List SkillMetadata) : ∀ st : UpdateStats,
    skills.foldl
      (fun st s =>
        match results s with
        | .error _ => { st with failed := st.failed + 1 }
        | .ok _ => { st with updated := st.updated + 1 }) st =
    { st with
      updated := st.updated + skills.countP (fun s => exceptOk (results s)),
      failed := st.failed + skills.countP (fun s => !(exceptOk (results s))) } := by
  induction skills with
  | nil => intro st; simp
  | cons s rest ih =>
    intro st
    cases st
    cases hres : results s with
    | ok v =>
      simp only [List.foldl_cons, hres]
      rw [ih]
      simp [List.countP_cons, exceptOk, hres]
      omega
    | error e =>
      simp only [List.foldl_cons, hres]
      rw [ih]
      simp [List.countP_cons, exceptOk, hres]
      omega

/-- Claim C10: `UpdateAll` counts in `updated` exactly the skills whose
`UpdateSkill` call returns nil (and an up-to-date skill does return nil
without downloading), counts the erroring calls in `failed`, never touches
`skipped`, and on return `updated + failed = total =` length of the input. -/
theorem updateAll_counts (results : SkillMetadata → Except String Unit)
    (skills : List SkillMetadata) :
    (UpdateAll results skills).total = skills.length ∧
    (UpdateAll results skills).updated =
      skills.countP (fun s => exceptOk (results s)) ∧
    (UpdateAll results skills).failed =
      skills.countP (fun s => !(exceptOk (results s))) ∧
    (UpdateAll results skills).skipped = 0 ∧
    (UpdateAll results skills).updated + (UpdateAll results skills).failed =
      (UpdateAll results skills).total ∧
    ∀ (skill : SkillMetadata) (sha : String) (download : Except String Unit),
      skill.sourceURL ≠ "" → sha = skill.commitSHA →
      UpdateSkillRun skill (.ok ri0) (.ok sha) download = .ok () := by
  have hf := updateAll_foldl results skills
  refine ⟨?_, ?_, ?_, ?_, ?_, ?_⟩
  · rw [UpdateAll, hf]
  · rw [UpdateAll, hf]; simp
  · rw [UpdateAll, hf]; simp
  · rw [UpdateAll, hf]
  · rw [UpdateAll, hf]
    simpa using countP_add_countP_bnot (fun s => exceptOk (results s)) skills
  · intro skill sha download hurl hsha
    simp [UpdateSkillRun, CheckUpdate, hurl, hsha]

/-- A concrete per-skill result oracle: `skillA` updates cleanly, anything
else fails. -/
def results0 : SkillMetadata → Except String Unit := fun s =>
  if s.id = skillA.id then .ok () else .error "download failed"

theorem updateAll_counts_witness :
    UpdateSkillRun skillA (.ok ri0) (.ok skillA.commitSHA) (.error "boom") =
      .ok () :=
  (updateAll_counts results0 [skillA, skillB]).2.2.2.2.2 skillA skillA.commitSHA
    (.error "boom") (by decide) rfl

/-- Outcome of one HTTP attempt against the contents API: a transport error
carrying its message, or a response with an HTTP status and, for status 200,
the parse result of its body (`none` models a body the JSON unmarshal
rejects; the payload is an abstract token for the decoded listing). -/
inductive FetchOutcome (α : Type)
  | transportErr (msg : String)
  | resp (status : Nat) (parsed : Option α)
deriving Repr, DecidableEq

/-- Helper for the substring scan: does `sub` occur inside the char list? -/
def strContainsAux (sub : List Char) : List Char → Bool
  | [] => sub.isEmpty
  | c :: t => sub.isPrefixOf (c :: t) || strContainsAux sub t

/-- Go `strings.Contains`, on the underlying character lists. -/
def strContains (s sub : String) : Bool :=
  strContainsAux sub.toList s.toList

/-- `add.isRateLimitError` applied to a Go error value that may be nil:
nil is never a rate-limit error; otherwise the message is scanned for
"403", "429" or "rate limit exceeded". -/
def isRateLimitErrorO : Option String → Bool
  | none => false
  | some msg =>
      strContains msg "403" || strContains msg "429" ||
        strContains msg "rate limit exceeded"

/-- `add.isRateLimitResponse`: HTTP 403 and 429 are the rate-limit statuses. -/
def isRateLimitResponse (status : Nat) : Bool :=
  status == 403 || status == 429

/-- `maxRetryAttempts` (add package) and `maxRetryAttempt` (update package). -/
def maxRetryAttempts : Nat := 5

/-- Backoff before the next attempt: `min(2^attempt seconds, 16s)`. -/
def backoffSeconds (attempt : Nat) : Nat :=
  min (2 ^ attempt) 16

/-- Result of a full retry loop: the final outcome, the number of HTTP
requests issued, and the backoff sleeps (in seconds) taken between them. -/
structure RetryResult (α : Type) where
  result : Except String α
  requests : Nat
  sleeps : List Nat
deriving Repr, DecidableEq

/-- The attempt loop of `Client.getGitHubContents` in the variant that tests
`isRateLimitResponse` on the HTTP status.  `remaining` counts loop iterations
still allowed, `attempt` is the Go loop index, `lastErr` mirrors the Go
variable of that name; the context is modelled as never cancelled and each
backoff is recorded rather than slept.  Note that the rate-limit backoff
branches `continue` without assigning `lastErr`, and that a non-200 status
that is not rate-limited falls through to `lastErr = ...; continue`, i.e. it
is retried immediately. -/
def getGitHubContentsLoop (outcomes : Nat → FetchOutcome Nat) :
    Nat → Nat → Option String → Nat → List Nat → RetryResult Nat
  | 0, _, lastErr, requests, sleeps =>
    ⟨.error (lastErr.getD ""), requests, sleeps⟩
  | remaining + 1, attempt, lastErr, requests, sleeps =>
    match outcomes attempt with
    | .transportErr msg =>
      if isRateLimitErrorO (some msg) && decide (attempt + 1 < maxRetryAttempts) then
        getGitHubContentsLoop outcomes remaining (attempt + 1) lastErr
          (requests + 1) (sleeps ++ [backoffSeconds attempt])
      else
        getGitHubContentsLoop outcomes remaining (attempt + 1) (some msg)
          (requests + 1) sleeps
    | .resp status parsed =>
      if status ≠ 200 then
        if isRateLimitResponse status && decide (attempt + 1 < maxRetryAttempts) then
          getGitHubContentsLoop outcomes remaining (attempt + 1) lastErr
            (requests + 1) (sleeps ++ [backoffSeconds attempt])
        else
          getGitHubContentsLoop outcomes remaining (attempt + 1)
            (some ("GitHub API returned status " ++ toString status))
            (requests + 1) sleeps
      else
        match parsed with
        | none => ⟨.error "failed to unmarshal response", requests + 1, sleeps⟩
        | some v => ⟨.ok v, requests + 1, sleeps⟩

/-- `Client.getGitHubContents` (the `isRateLimitResponse` variant). -/
def getGitHubContents (outcomes : Nat → FetchOutcome Nat) : RetryResult Nat :=
  getGitHubContentsLoop outcomes maxRetryAttempts 0 none 0 []

/-- The attempt loop of `Client.getGitHubContents` in the
`internal/add/downloader.go` variant: in the non-200 branch the code calls
`isRateLimitError(err)` on the transport error, which is nil there, so the
backoff condition is always false and every non-200 status — 403 and 429
included — is retried immediately without sleeping. -/
def getGitHubContentsDLLoop (outcomes : Nat → FetchOutcome Nat) :
    Nat → Nat → Option String → Nat → List Nat → RetryResult Nat
  | 0, _, lastErr, requests, sleeps =>
    ⟨.error (lastErr.getD ""), requests, sleeps⟩
  | remaining + 1, attempt, lastErr, requests, sleeps =>
    match outcomes attempt with
    | .transportErr msg =>
      if isRateLimitErrorO (some msg) && decide (attempt + 1 < maxRetryAttempts) then
        getGitHubContentsDLLoop outcomes remaining (attempt + 1) lastErr
          (requests + 1) (sleeps ++ [backoffSeconds attempt])
      else
        getGitHubContentsDLLoop outcomes remaining (attempt + 1) (some msg)
          (requests + 1) sleeps
    | .resp status parsed =>
      if status ≠ 200 then
        if isRateLimitErrorO none && decide (attempt + 1 < maxRetryAttempts) then
          getGitHubContentsDLLoop outcomes remaining (attempt + 1) lastErr
            (requests + 1) (sleeps ++ [backoffSeconds attempt])
        else
          getGitHubContentsDLLoop outcomes remaining (attempt + 1)
            (some ("GitHub API returned status " ++ toString status))
            (requests + 1) sleeps
      else
        match parsed with
        | none => ⟨.error "failed to unmarshal response", requests + 1, sleeps⟩
        | some v => ⟨.ok v, requests + 1, sleeps⟩

/-- `Client.getGitHubContents` from `internal/add/downloader.go`. -/
def getGitHubContentsDL (outcomes : Nat → FetchOutcome Nat) : RetryResult Nat :=
  getGitHubContentsDLLoop outcomes maxRetryAttempts 0 none 0 []

/-- Outcome of one raw-download attempt (`Client.downloadFile`): a transport
error, or a response with a status and an abstract byte payload; the body is
returned as-is on status 200, there is no parse step. -/
inductive DlOutcome
  | transportErr (msg : String)
  | resp (status : Nat) (body : Nat)
deriving Repr, DecidableEq

/-- The attempt loop of `Client.downloadFile`. -/
def downloadFileLoop (outcomes : Nat → DlOutcome) :
    Nat → Nat → Option String → Nat → List Nat → RetryResult Nat
  | 0, _, lastErr, requests, sleeps =>
    ⟨.error (lastErr.getD ""), requests, sleeps⟩
  | remaining + 1, attempt, lastErr, requests, sleeps =>
    match outcomes attempt with
    | .transportErr msg =>
      if isRateLimitErrorO (some msg) && decide (attempt + 1 < maxRetryAttempts) then
        downloadFileLoop outcomes remaining (attempt + 1) lastErr
          (requests + 1) (sleeps ++ [backoffSeconds attempt])
      else
        downloadFileLoop outcomes remaining (attempt + 1) (some msg)
          (requests + 1) sleeps
    | .resp status body =>
      if status ≠ 200 then
        if isRateLimitResponse status && decide (attempt + 1 < maxRetryAttempts) then
          downloadFileLoop outcomes remaining (attempt + 1) lastErr
            (requests + 1) (sleeps ++ [backoffSeconds attempt])
        else
          downloadFileLoop outcomes remaining (attempt + 1)
            (some ("download failed with status " ++ toString status))
            (requests + 1) sleeps
      else ⟨.ok body, requests + 1, sleeps⟩

/-- `Client.downloadFile`. -/
def downloadFile (outcomes : Nat → DlOutcome) : RetryResult Nat :=
  downloadFileLoop outcomes maxRetryAttempts 0 none 0 []

/-- Body of a commits-API response as `getBranchCommitSHA` sees it: a body
the JSON unmarshal rejects, a JSON object with no usable "sha" string, or a
commit SHA. -/
inductive ShaBody
  | badJson
  | missingSha
  | shaVal (s : String)
deriving Repr, DecidableEq

/-- Outcome of one commits-API attempt. -/
inductive ShaOutcome
  | transportErr (msg : String)
  | resp (status : Nat) (body : ShaBody)
deriving Repr, DecidableEq

/-- The attempt loop of `Client.getBranchCommitSHA`: both a body that fails
to unmarshal and a missing "sha" field abort immediately without a retry. -/
def getBranchCommitSHALoop (outcomes : Nat → ShaOutcome) :
    Nat → Nat → Option String → Nat → List Nat → RetryResult String
  | 0, _, lastErr, requests, sleeps =>
    ⟨.error (lastErr.getD ""), requests, sleeps⟩
  | remaining + 1, attempt, lastErr, requests, sleeps =>
    match outcomes attempt with
    | .transportErr msg =>
      if isRateLimitErrorO (some msg) && decide (attempt + 1 < maxRetryAttempts) then
        getBranchCommitSHALoop outcomes remaining (attempt + 1) lastErr
          (requests + 1) (sleeps ++ [backoffSeconds attempt])
      else
        getBranchCommitSHALoop outcomes remaining (attempt + 1) (some msg)
          (requests + 1) sleeps
    | .resp status body =>
      if status ≠ 200 then
        if isRateLimitResponse status && decide (attempt + 1 < maxRetryAttempts) then
          getBranchCommitSHALoop outcomes remaining (attempt + 1) lastErr
            (requests + 1) (sleeps ++ [backoffSeconds attempt])
        else
          getBranchCommitSHALoop outcomes remaining (attempt + 1)
            (some ("GitHub API returned status " ++ toString status ++
              " for commit SHA"))
            (requests + 1) sleeps
      else
        match body with
        | .badJson => ⟨.error "failed to unmarshal commit response", requests + 1, sleeps⟩
        | .missingSha => ⟨.error "commit SHA not found in response", requests + 1, sleeps⟩
        | .shaVal s => ⟨.ok s, requests + 1, sleeps⟩

/-- `Client.getBranchCommitSHA`. -/
def getBranchCommitSHA (outcomes : Nat → ShaOutcome) : RetryResult String :=
  getBranchCommitSHALoop outcomes maxRetryAttempts 0 none 0 []

/-- Attempt outcomes where the first request answers HTTP 404 and the second
succeeds with a decoded listing. -/
def outcomes404then200 : Nat → FetchOutcome Nat
  | 0 => .resp 404 none
  | _ => .resp 200 (some 7)

/-- Claim C2 counterexample: a 404 — a non-rate-limit failure — does not
surface immediately: `getGitHubContents` retries it, issues a second request
and even succeeds on it, contradicting the claim that non-rate-limit
failures are never retried. -/
theorem getGitHubContents_retries_404 :
    getGitHubContents outcomes404then200 = ⟨.ok 7, 2, []⟩ := by rfl

set_option maxHeartbeats 1600000

/-- Claim C2 as amended: each remote operation makes at most five attempts;
rate-limit responses (HTTP 403/429) back off `min(2^attempt, 16)` seconds
before the next attempt in the `isRateLimitResponse` variants, while the
`downloader.go` variant tests the nil transport error and therefore retries
even a 429 response with no sleep; non-rate-limit HTTP failures such as 404
are retried too, immediately and without sleeping, and the last error
surfaces only once the five attempts are exhausted; a malformed payload
surfaces immediately without any retry. -/
theorem retry_policy_characterisation
    (o1 o2 o3 o6 : Nat → FetchOutcome Nat) (o4 : Nat → DlOutcome)
    (o5 : Nat → ShaOutcome) (v w b : Nat) (sha : String)
    (h1 : ∀ i, o1 i = .resp 404 none)
    (h2a : o2 0 = .resp 429 none) (h2b : o2 1 = .resp 429 none)
    (h2c : o2 2 = .resp 200 (some v))
    (h3 : o3 0 = .resp 200 none)
    (h6a : o6 0 = .resp 429 none) (h6b : o6 1 = .resp 200 (some w))
    (h4a : o4 0 = .resp 429 0) (h4b : o4 1 = .resp 200 b)
    (h5a : o5 0 = .resp 404 .badJson) (h5b : o5 1 = .resp 200 (.shaVal sha)) :
    getGitHubContents o1 = ⟨.error "GitHub API returned status 404", 5, []⟩ ∧
    getGitHubContents o2 = ⟨.ok v, 3, [1, 2]⟩ ∧
    getGitHubContents o3 = ⟨.error "failed to unmarshal response", 1, []⟩ ∧
    (∀ a, backoffSeconds a = min (2 ^ a) 16 ∧ backoffSeconds a ≤ 16) ∧
    getGitHubContentsDL o6 = ⟨.ok w, 2, []⟩ ∧
    downloadFile o4 = ⟨.ok b, 2, [1]⟩ ∧
    getBranchCommitSHA o5 = ⟨.ok sha, 2, []⟩ := by
  refine ⟨?_, ?_, ?_, ?_, ?_, ?_, ?_⟩
  · simp only [getGitHubContents, maxRetryAttempts]
    simp only [getGitHubContentsLoop, h1 0, h1 1, h1 2, h1 3, h1 4]
    norm_num [isRateLimitResponse, maxRetryAttempts]
    decide
  · simp only [getGitHubContents, maxRetryAttempts]
    simp only [getGitHubContentsLoop, h2a, h2b, h2c]
    norm_num [isRateLimitResponse, backoffSeconds, maxRetryAttempts]
  · simp only [getGitHubContents, maxRetryAttempts]
    simp only [getGitHubContentsLoop, h3]
    norm_num
  · intro a; exact ⟨rfl, min_le_right _ _⟩
  · simp only [getGitHubContentsDL, maxRetryAttempts]
    simp only [getGitHubContentsDLLoop, h6a, h6b]
    norm_num [isRateLimitErrorO, maxRetryAttempts]
  · simp only [downloadFile, maxRetryAttempts]
    simp only [downloadFileLoop, h4a, h4b]
    norm_num [isRateLimitResponse, backoffSeconds, maxRetryAttempts]
  · simp only [getBranchCommitSHA, maxRetryAttempts]
    simp only [getBranchCommitSHALoop, h5a, h5b]
    norm_num [isRateLimitResponse, maxRetryAttempts, decide_eq_true_eq]

/-- Concrete oracle: two 429 responses, then success. -/
def outcomes429twice : Nat → FetchOutcome Nat
  | 0 => .resp 429 none
  | 1 => .resp 429 none
  | _ => .resp 200 (some 9)

/-- Concrete oracle: always 404. -/
def outcomesAll404 : Nat → FetchOutcome Nat := fun _ => .resp 404 none

/-- Concrete oracle: malformed body on the first attempt. -/
def outcomesBadBody : Nat → FetchOutcome Nat := fun _ => .resp 200 none

/-- Concrete oracle for the downloader.go variant: 429 then success. -/
def outcomesDL429 : Nat → FetchOutcome Nat
  | 0 => .resp 429 none
  | _ => .resp 200 (some 3)

/-- Concrete raw-download oracle: 429 then the body. -/
def dlOutcomes429 : Nat → DlOutcome
  | 0 => .resp 429 0
  | _ => .resp 200 11

/-- Concrete commits-API oracle: 404 then a SHA. -/
def shaOutcomes404 : Nat → ShaOutcome
  | 0 => .resp 404 .badJson
  | _ => .resp 200 (.shaVal "sha9")

theorem retry_policy_characterisation_witness :
    getGitHubContents outcomesAll404 =
        ⟨.error "GitHub API returned status 404", 5, []⟩ ∧
    getGitHubContents outcomes429twice = ⟨.ok 9, 3, [1, 2]⟩ ∧
    getGitHubContents outcomesBadBody =
        ⟨.error "failed to unmarshal response", 1, []⟩ ∧
    (∀ a, backoffSeconds a = min (2 ^ a) 16 ∧ backoffSeconds a ≤ 16) ∧
    getGitHubContentsDL outcomesDL429 = ⟨.ok 3, 2, []⟩ ∧
    downloadFile dlOutcomes429 = ⟨.ok 11, 2, [1]⟩ ∧
    getBranchCommitSHA shaOutcomes404 = ⟨.ok "sha9", 2, []⟩ :=
  retry_policy_characterisation outcomesAll404 outcomes429twice outcomesBadBody
    outcomesDL429 dlOutcomes429 shaOutcomes404 9 3 11 "sha9"
    (fun _ => rfl) rfl rfl rfl rfl rfl rfl rfl rfl rfl rfl

/-- The staging and destination directories of one materializer invocation;
`none` means the directory does not exist on disk, and a directory's content
is a flat list of file path and payload pairs. -/
structure MatFS where
  dest : Option (List (String × String))
  staging : Option (List (String × String))
deriving Repr, DecidableEq

/-- Effect oracle for one `Updater.downloadAndUpdate` run: whether the
staging directory can be created, the result of the recursive download, and
whether each later filesystem and registry step succeeds. -/
structure MatOracle where
  mkdirOk : Bool
  download : Except String (List (String × String))
  removeDestOk : Bool
  renameOk : Bool
  registryOk : Bool
deriving Repr, DecidableEq

/-- `Updater.downloadAndUpdate` after URL parsing and path resolution.  The
deferred cleanup removes the staging directory only when the function-scope
`err` variable is non-nil at return; `os.RemoveAll(localPath)`, `os.Rename`
and the registry update each assign a freshly shadowed `err` inside their
own `if` statement, so the function-scope `err` can only ever have been set
by the download step — a failure in any later step therefore returns with
the staging directory still on disk.  A failing `os.RemoveAll(localPath)`
is modelled as leaving the destination unchanged (it may equally well remove
part of it). -/
def downloadAndUpdate (fs : MatFS) (o : MatOracle) : Except String Unit × MatFS :=
  if ¬ o.mkdirOk then (.error "failed to create temporary directory", fs)
  else
    let fs1 : MatFS := { fs with staging := some [] }
    match o.download with
    | .error _ =>
      (.error "failed to download files", { fs1 with staging := none })
    | .ok c =>
      let fs2 : MatFS := { fs1 with staging := some c }
      if ¬ o.removeDestOk then
        (.error "failed to remove existing directory", fs2)
      else
        let fs3 : MatFS := { fs2 with dest := none }
        if ¬ o.renameOk then
          (.error "failed to move files to final location", fs3)
        else
          let fs4 : MatFS := { fs3 with dest := some c, staging := none }
          if ¬ o.registryOk then
            (.error "failed to update registry", fs4)
          else (.ok (), fs4)

/-- Effect oracle for one `Client.Download` run: results of the URL parse,
the SKILL.md probe and the overwrite prompt, then the same staging-phase
effects as in `downloadAndUpdate`. -/
structure DownloadOracle where
  parse : Except String GitHubRepoInfo
  hasSkillMD : Except String Bool
  promptResult : Except String Bool
  removeExistingOk : Bool
  mkdirOk : Bool
  download : Except String (List (String × String))
  removeDestOk : Bool
  renameOk : Bool
deriving Repr, DecidableEq

/-- The staging, download, destination-removal and rename tail of
`Client.Download`, sharing the `err`-shadowing structure described at
`downloadAndUpdate`: only a download failure triggers the deferred staging
cleanup. -/
def clientDownloadTail (fs : MatFS) (o : DownloadOracle) :
    Except String Unit × MatFS :=
  if ¬ o.mkdirOk then (.error "failed to create temporary directory", fs)
  else
    let fs1 : MatFS := { fs with staging := some [] }
    match o.download with
    | .error _ => (.error "failed to download", { fs1 with staging := none })
    | .ok c =>
      let fs2 : MatFS := { fs1 with staging := some c }
      if ¬ o.removeDestOk then
        (.error "failed to remove existing directory for atomic move", fs2)
      else
        let fs3 : MatFS := { fs2 with dest := none }
        if ¬ o.renameOk then
          (.error "failed to move download to final location", fs3)
        else (.ok (), { fs3 with dest := some c, staging := none })

/-- `Client.Download` (the add-path materializer).  Home-directory
resolution and the skill-name validity check are modelled as succeeding.
When the destination already exists the user is prompted: a decline prints
"Download cancelled." and returns nil with nothing touched, while a
confirmation removes the existing destination before any download begins. -/
def clientDownload (fs : MatFS) (o : DownloadOracle) :
    Except String Unit × MatFS :=
  match o.parse with
  | .error _ => (.error "failed to parse URL", fs)
  | .ok _ =>
    match o.hasSkillMD with
    | .error _ => (.error "failed to check SKILL.md", fs)
    | .ok false => (.error "SKILL.md not found in the target directory", fs)
    | .ok true =>
      if fs.dest.isSome then
        match o.promptResult with
        | .error _ => (.error "failed to read user input", fs)
        | .ok false => (.ok (), fs)
        | .ok true =>
          if ¬ o.removeExistingOk then
            (.error "failed to remove existing directory", fs)
          else clientDownloadTail { fs with dest := none } o
      else clientDownloadTail fs o

/-- Claim C1 evaluated at its failing inputs.  First conjunct: the download
has staged files and `os.RemoveAll(localPath)` fails — the run fails strictly
before the rename, yet the staging directory remains on disk.  Second
conjunct: `os.Rename` fails — the staging directory remains and the
pre-existing destination has already been removed.  Third conjunct: in the
confirmed-overwrite path of `Client.Download` the destination is removed
before the download even starts, so a download failure leaves the
destination destroyed (though there the staging cleanup does run). -/
theorem materializer_staging_left_on_failure :
    (downloadAndUpdate { dest := some [("SKILL.md", "old")], staging := none }
        { mkdirOk := true, download := .ok [("SKILL.md", "new")],
          removeDestOk := false, renameOk := true, registryOk := true } =
      (.error "failed to remove existing directory",
        { dest := some [("SKILL.md", "old")],
          staging := some [("SKILL.md", "new")] })) ∧
    (downloadAndUpdate { dest := some [("SKILL.md", "old")], staging := none }
        { mkdirOk := true, download := .ok [("SKILL.md", "new")],
          removeDestOk := true, renameOk := false, registryOk := true } =
      (.error "failed to move files to final location",
        { dest := none, staging := some [("SKILL.md", "new")] })) ∧
    (clientDownload { dest := some [("SKILL.md", "old")], staging := none }
        { parse := .ok ri0, hasSkillMD := .ok true, promptResult := .ok true,
          removeExistingOk := true, mkdirOk := true,
          download := .error "network", removeDestOk := true,
          renameOk := true } =
      (.error "failed to download", { dest := none, staging := none })) :=
  ⟨rfl, rfl, rfl⟩

/-- Destructive actions performed by one `RemoveSkillByName` run. -/
structure RemoveActions where
  removedSymlinks : List String
  removedDir : Option String
  removedRegistryId : Option String
deriving Repr, DecidableEq

/-- Effect oracle for `RemoveSkillByName`: the registry lookup, the answer
of whichever confirmation prompt is shown, and the success of the directory
and registry removals. -/
structure RemoveOracle where
  findResult : Except String SkillMetadata
  confirmAnswer : Except String Bool
  removeDirOk : Bool
  registryRemoveOk : Bool
deriving Repr, DecidableEq

/-- Tail of `RemoveSkillByName` once the confirmation value is known: a
decline yields the sentinel error "operation cancelled" with nothing
removed; a confirmation removes the store directory and then the registry
entry. -/
def removeSkillTail (skill : SkillMetadata) (confirmed : Bool)
    (syms : List String) (o : RemoveOracle) :
    Except String Unit × RemoveActions :=
  if ¬ confirmed then
    (.error "operation cancelled",
      { removedSymlinks := syms, removedDir := none, removedRegistryId := none })
  else if ¬ o.removeDirOk then
    (.error ("failed to remove skill directory " ++ skill.storePath),
      { removedSymlinks := syms, removedDir := none, removedRegistryId := none })
  else if ¬ o.registryRemoveOk then
    (.error "failed to remove skill from registry",
      { removedSymlinks := syms, removedDir := some skill.storePath,
        removedRegistryId := none })
  else
    (.ok (),
      { removedSymlinks := syms, removedDir := some skill.storePath,
        removedRegistryId := some skill.id })

/-- `remove.RemoveSkillByName`: look the skill up by name; when it has
linked projects, list them, prompt with the link-aware prompt and, on
confirmation, remove every recorded symlink (individual symlink failures
are only warnings); otherwise use the plain prompt.  Either way a declined
prompt reaches the common tail with `confirmed = false` and no symlink
removed. -/
def RemoveSkillByName (o : RemoveOracle) : Except String Unit × RemoveActions :=
  match o.findResult with
  | .error e =>
    (.error e,
      { removedSymlinks := [], removedDir := none, removedRegistryId := none })
  | .ok skill =>
    match o.confirmAnswer with
    | .error e =>
      (.error e,
        { removedSymlinks := [], removedDir := none, removedRegistryId := none })
    | .ok confirmed =>
      let syms :=
        if decide (0 < skill.linkedProjects.length) && confirmed then
          skill.linkedProjects.map (fun p => p.2.symlinkPath)
        else []
      removeSkillTail skill confirmed syms o

/-- The RunE body of the remove command (`pkg/cmd/remove.go`): the sentinel
"operation cancelled" error is converted into a normal non-error outcome. -/
def removeCmdRunE (res : Except String Unit) : Except String Unit :=
  match res with
  | .error msg => if msg = "operation cancelled" then .ok () else .error msg
  | .ok _ => .ok ()

/-- Claim C7 counterexample: declining the removal confirmation makes
`RemoveSkillByName` itself return an error — the sentinel
"operation cancelled" — rather than completing without an error, even
though nothing is removed. -/
theorem removeSkill_decline_returns_error :
    RemoveSkillByName
        { findResult := .ok skillA, confirmAnswer := .ok false,
          removeDirOk := true, registryRemoveOk := true } =
      (.error "operation cancelled",
        { removedSymlinks := [], removedDir := none,
          removedRegistryId := none }) := rfl

/-- Claim C7 as amended: declining a confirmation performs no destructive
action in either operation; a declined re-download returns nil directly from
`Client.Download`, while a declined removal returns the sentinel error
"operation cancelled" from `RemoveSkillByName`, which the remove command's
RunE wrapper converts into a normal non-error outcome. -/
theorem decline_is_clean_cancel
    (skill : SkillMetadata) (o : RemoveOracle) (fs : MatFS)
    (od : DownloadOracle) (ri : GitHubRepoInfo)
    (hfind : o.findResult = .ok skill) (hconf : o.confirmAnswer = .ok false)
    (hdest : fs.dest.isSome = true)
    (hparse : od.parse = .ok ri) (hmd : od.hasSkillMD = .ok true)
    (hprompt : od.promptResult = .ok false) :
    RemoveSkillByName o =
      (.error "operation cancelled",
        { removedSymlinks := [], removedDir := none,
          removedRegistryId := none }) ∧
    removeCmdRunE (RemoveSkillByName o).1 = .ok () ∧
    clientDownload fs od = (.ok (), fs) := by
  have h1 : RemoveSkillByName o =
      (.error "operation cancelled",
        { removedSymlinks := [], removedDir := none,
          removedRegistryId := none }) := by
    simp [RemoveSkillByName, hfind, hconf, removeSkillTail]
  refine ⟨h1, by rw [h1]; rfl, ?_⟩
  simp [clientDownload, hparse, hmd, hdest, hprompt]

theorem decline_is_clean_cancel_witness :
    RemoveSkillByName
        { findResult := .ok skillB, confirmAnswer := .ok false,
          removeDirOk := false, registryRemoveOk := false } =
      (.error "operation cancelled",
        { removedSymlinks := [], removedDir := none,
          removedRegistryId := none }) ∧
    removeCmdRunE (RemoveSkillByName
        { findResult := .ok skillB, confirmAnswer := .ok false,
          removeDirOk := false, registryRemoveOk := false }).1 = .ok () ∧
    clientDownload { dest := some [("SKILL.md", "old")], staging := none }
        { parse := .ok ri0, hasSkillMD := .ok true, promptResult := .ok false,
          removeExistingOk := true, mkdirOk := true, download := .ok [],
          removeDestOk := true, renameOk := true } =
      (.ok (), { dest := some [("SKILL.md", "old")], staging := none }) :=
  decline_is_clean_cancel skillB
    { findResult := .ok skillB, confirmAnswer := .ok false,
      removeDirOk := false, registryRemoveOk := false }
    { dest := some [("SKILL.md", "old")], staging := none }
    { parse := .ok ri0, hasSkillMD := .ok true, promptResult := .ok false,
      removeExistingOk := true, mkdirOk := true, download := .ok [],
      removeDestOk := true, renameOk := true }
    ri0 rfl rfl rfl rfl rfl rfl

/-- Result of an `os.Lstat` call as the tidier inspects it: the path is
present at the link level (a broken symlink included), the path is missing
(`os.IsNotExist`), or the stat failed for another reason. -/
inductive LstatResult
  | present
  | missing
  | statErr (msg : String)
deriving Repr, DecidableEq

/-- `Tidier.checkSymlinkExists`: lstat the path, mapping not-exist to false
and surfacing any other stat failure. -/
def checkSymlinkExists (lstat : String → LstatResult) (p : String) :
    Except String Bool :=
  match lstat p with
  | .missing => .ok false
  | .statErr e => .error e
  | .present => .ok true

/-- The collection loop of `Tidier.findStaleLinks` over the entries of one
record's `linkedProjects` map: entries whose lstat errors are skipped with a
warning, and an entry is collected as stale exactly when its recorded
symlink path is missing. -/
def findStaleLinksList (lstat : String → LstatResult) :
    List (String × LinkedProjectInfo) → List String
  | [] => []
  | (pp, li) :: rest =>
    match checkSymlinkExists lstat li.symlinkPath with
    | .error _ => findStaleLinksList lstat rest
    | .ok true => findStaleLinksList lstat rest
    | .ok false => pp :: findStaleLinksList lstat rest

/-- `Tidier.findStaleLinks`. -/
def findStaleLinks (lstat : String → LstatResult) (skill : SkillMetadata) :
    List String :=
  findStaleLinksList lstat skill.linkedProjects

/-- Go `delete(map, k)` for each stale key in turn, on the association-list
model of the map. -/
def eraseKeys (m : List (String × LinkedProjectInfo)) (ks : List String) :
    List (String × LinkedProjectInfo) :=
  ks.foldl (fun acc k => acc.filter (fun p => p.1 ≠ k)) m

/-- One registry write queued by tidy phase 1: the affected record id and
its `linkedProjects` map after all of that record's stale entries were
deleted (set to Go nil when it becomes empty — the empty list here). -/
structure TidyUpdateCall where
  skillId : String
  newLinkedProjects : List (String × LinkedProjectInfo)
deriving Repr, DecidableEq

/-- Phase 1 of `Tidier.Tidy`: skip records with no linked projects, add
every record's stale-entry count to `StaleRegistryEntries`, and queue
exactly one registry update per affected record in which all of that
record's stale keys are deleted.  The worker pool only parallelises the
lstat checks; the counter is incremented under a mutex and the queued
updates run after every check completes, so the phase is modelled in
registry order. -/
def tidyPhase1 (lstat : String → LstatResult) (skills : List SkillMetadata) :
    Nat × List TidyUpdateCall :=
  skills.foldl
    (fun acc skill =>
      if skill.linkedProjects.length = 0 then acc
      else
        let stale := findStaleLinks lstat skill
        if 0 < stale.length then
          (acc.1 + stale.length,
            acc.2 ++ [⟨skill.id, eraseKeys skill.linkedProjects stale⟩])
        else acc)
    (0, [])

theorem findStaleLinksList_eq_filter (lstat : String → LstatResult)
    (l : List (String × LinkedProjectInfo)) :
    findStaleLinksList lstat l =
      (l.filter (fun p => decide (lstat p.2.symlinkPath = .missing))).map
        Prod.fst := by
  induction l with
  | nil => rfl
  | cons q rest ih =>
    obtain ⟨pp, li⟩ := q
    cases h : lstat li.symlinkPath <;>
      simp [findStaleLinksList, checkSymlinkExists, h, ih]

theorem findStaleLinksList_subset_keys (lstat : String → LstatResult)
    (l : List (String × LinkedProjectInfo)) (x : String)
    (hx : x ∈ findStaleLinksList lstat l) : x ∈ l.map Prod.fst := by
  rw [findStaleLinksList_eq_filter] at hx
  rcases List.mem_map.mp hx with ⟨p, hp, rfl⟩
  exact List.mem_map_of_mem Prod.fst (List.mem_of_mem_filter hp)

theorem mem_findStaleLinksList_iff (lstat : String → LstatResult)
    (l : List (String × LinkedProjectInfo))
    (hnodup : (l.map Prod.fst).Nodup) (pp : String) (li : LinkedProjectInfo)
    (hmem : (pp, li) ∈ l) :
    pp ∈ findStaleLinksList lstat l ↔ lstat li.symlinkPath = .missing := by
  induction l with
  | nil => simp at hmem
  | cons q rest ih =>
    obtain ⟨qp, qi⟩ := q
    have h0 : ((qp, qi).1 :: rest.map Prod.fst).Nodup := by
      simpa only [List.map_cons] using hnodup
    have hq : qp ∉ rest.map Prod.fst := (List.nodup_cons.mp h0).1
    have hrest : (rest.map Prod.fst).Nodup := (List.nodup_cons.mp h0).2
    rcases List.mem_cons.mp hmem with hhead | htail
    · injection hhead with h1 h2
      subst h1
      subst h2
      cases h : lstat li.symlinkPath with
      | missing =>
        simp [findStaleLinksList, checkSymlinkExists, h]
      | present =>
        simp only [findStaleLinksList, checkSymlinkExists, h]
        constructor
        · intro hin
          exact absurd (findStaleLinksList_subset_keys lstat rest pp hin) hq
        · intro hc; cases hc
      | statErr e =>
        simp only [findStaleLinksList, checkSymlinkExists, h]
        constructor
        · intro hin
          exact absurd (findStaleLinksList_subset_keys lstat rest pp hin) hq
        · intro hc; cases hc
    · have hne : pp ≠ qp := by
        intro he
        exact hq (he ▸ List.mem_map_of_mem Prod.fst htail)
      cases h : lstat qi.symlinkPath with
      | missing =>
        simp only [findStaleLinksList, checkSymlinkExists, h]
        simpa [hne] using ih hrest htail
      | present =>
        simp only [findStaleLinksList, checkSymlinkExists, h]
        exact ih hrest htail
      | statErr e =>
        simp only [findStaleLinksList, checkSymlinkExists, h]
        exact ih hrest htail

theorem eraseKeys_mem_iff (m : List (String × LinkedProjectInfo))
    (ks : List String) (q : String × LinkedProjectInfo) :
    q ∈ eraseKeys m ks ↔ q ∈ m ∧ q.1 ∉ ks := by
  induction ks generalizing m with
  | nil => simp [eraseKeys]
  | cons k rest ih =>
    have hstep : eraseKeys m (k :: rest) =
        eraseKeys (m.filter (fun p => p.1 ≠ k)) rest := rfl
    rw [hstep, ih]
    constructor
    · rintro ⟨hmf, hrest⟩
      rw [List.mem_filter] at hmf
      obtain ⟨hm, hk⟩ := hmf
      have hkne : q.1 ≠ k := by simpa using hk
      refine ⟨hm, ?_⟩
      simp only [List.mem_cons]
      rintro (h | h)
      · exact hkne h
      · exact hrest h
    · rintro ⟨hm, hks⟩
      have hkne : q.1 ≠ k := fun h => hks (by simp [h])
      have hrest : q.1 ∉ rest := fun h => hks (by simp [h])
      exact ⟨List.mem_filter.mpr ⟨hm, by simpa using hkne⟩, hrest⟩

theorem tidyPhase1_foldl (lstat : String → LstatResult)
    (skills : List SkillMetadata) : ∀ (n : Nat) (cs : List TidyUpdateCall),
    skills.foldl
      (fun acc skill =>
        if skill.linkedProjects.length = 0 then acc
        else
          let stale := findStaleLinks lstat skill
          if 0 < stale.length then
            (acc.1 + stale.length,
              acc.2 ++ [⟨skill.id, eraseKeys skill.linkedProjects stale⟩])
          else acc)
      (n, cs) =
    (n + (skills.map (fun s => (findStaleLinks lstat s).length)).sum,
     cs ++ (skills.filter
         (fun s => decide (0 < (findStaleLinks lstat s).length))).map
       (fun s => ⟨s.id, eraseKeys s.linkedProjects (findStaleLinks lstat s)⟩)) := by
  induction skills with
  | nil => intro n cs; simp
  | cons s rest ih =>
    intro n cs
    by_cases hlp : s.linkedProjects.length = 0
    · have hstale : findStaleLinks lstat s = [] := by
        have he : s.linkedProjects = [] := List.length_eq_zero.mp hlp
        simp [findStaleLinks, he, findStaleLinksList]
      simp only [List.foldl_cons, if_pos hlp]
      rw [ih n cs]
      simp [hstale, List.filter_cons]
    · by_cases hst : 0 < (findStaleLinks lstat s).length
      · simp only [List.foldl_cons, if_neg hlp, if_pos hst]
        rw [ih]
        simp [hst, List.filter_cons, List.append_assoc, Nat.add_assoc]
      · simp only [List.foldl_cons, if_neg hlp, if_neg hst]
        rw [ih n cs]
        have hz : (findStaleLinks lstat s).length = 0 := by omega
        simp [hst, hz, List.filter_cons]

/-- Claim C8: tidy phase 1 counts a `linkedProjects` entry as stale exactly
when lstat reports its recorded symlink path missing (a present-but-broken
symlink is not stale, nor is an entry whose lstat errors); all stale entries
of a record are removed through a single queued registry update for that
record and none of its fresh entries is touched; and the reported
`StaleRegistryEntries` equals the total number of stale entries across all
records. -/
theorem tidy_phase1_characterisation (lstat : String → LstatResult)
    (skills : List SkillMetadata) :
    (tidyPhase1 lstat skills).1 =
      (skills.map (fun s =>
        (s.linkedProjects.filter
          (fun p => decide (lstat p.2.symlinkPath = .missing))).length)).sum ∧
    (tidyPhase1 lstat skills).2 =
      (skills.filter
          (fun s => decide (0 < (findStaleLinks lstat s).length))).map
        (fun s => ⟨s.id, eraseKeys s.linkedProjects (findStaleLinks lstat s)⟩) ∧
    (∀ skill : SkillMetadata, (skill.linkedProjects.map Prod.fst).Nodup →
      ∀ pp li, (pp, li) ∈ skill.linkedProjects →
        (pp ∈ findStaleLinks lstat skill ↔ lstat li.symlinkPath = .missing)) ∧
    (∀ (m : List (String × LinkedProjectInfo)) (ks : List String)
        (q : String × LinkedProjectInfo),
      q ∈ eraseKeys m ks ↔ q ∈ m ∧ q.1 ∉ ks) := by
  refine ⟨?_, ?_, ?_, ?_⟩
  · rw [tidyPhase1, tidyPhase1_foldl]
    simp [findStaleLinks, findStaleLinksList_eq_filter]
  · rw [tidyPhase1, tidyPhase1_foldl]
    simp
  · intro skill hnodup pp li hmem
    exact mem_findStaleLinksList_iff lstat skill.linkedProjects hnodup pp li hmem
  · exact eraseKeys_mem_iff

/-- A record with one fresh and one stale link, for the C8 witness. -/
def skillLinked : SkillMetadata :=
  { skillA with
    linkedProjects :=
      [("/proj/p1", { symlinkPath := "/proj/p1/.opencode/skills/alpha", linkedAt := 0 }),
       ("/proj/p2", { symlinkPath := "/proj/p2/.opencode/skills/alpha", linkedAt := 0 })] }

/-- Lstat oracle for the C8 witness: the p2 symlink is gone, all else is
present. -/
def lstat0 : String → LstatResult := fun p =>
  if p = "/proj/p2/.opencode/skills/alpha" then .missing else .present

theorem tidy_phase1_characterisation_witness :
    (tidyPhase1 lstat0 [skillLinked]).1 =
      ([skillLinked].map (fun s =>
        (s.linkedProjects.filter
          (fun p => decide (lstat0 p.2.symlinkPath = .missing))).length)).sum ∧
    ("/proj/p2" ∈ findStaleLinks lstat0 skillLinked ↔
      lstat0 "/proj/p2/.opencode/skills/alpha" = .missing) := by
  have h := tidy_phase1_characterisation lstat0 [skillLinked]
  refine ⟨h.1, ?_⟩
  exact h.2.2.1 skillLinked (by decide) "/proj/p2"
    { symlinkPath := "/proj/p2/.opencode/skills/alpha", linkedAt := 0 } (by decide)

/-- The link namespace directory inside a project
(`constants.OpencodeSkillsDir`; the constants file is not among the sources,
so the value is taken from the link package documentation, which names
`.opencode/skills/` directories — its exact text does not matter to any
theorem below). -/
def opencodeSkillsDir : String := ".opencode/skills"

/-- State touched by the link manager: the registry records, and the
symlinks on disk as an association list from symlink path to target. -/
structure LinkerState where
  registry : List SkillMetadata
  symlinks : List (String × String)
deriving Repr, DecidableEq

/-- `registry.FindSkillByName`: reject an empty name, then return the first
record carrying the name. -/
def FindSkillByName (skills : List SkillMetadata) (name : String) :
    Except String SkillMetadata :=
  if name = "" then .error "skill name cannot be empty"
  else
    match skills.find? (fun s => s.name = name) with
    | some s => .ok s
    | none => .error ("skill not found in registry: " ++ name)

/-- Go map assignment `m[k] = v` on the association-list model: overwrite
the entry holding the key, or append a new entry. -/
def lpInsert (m : List (String × LinkedProjectInfo)) (k : String)
    (v : LinkedProjectInfo) : List (String × LinkedProjectInfo) :=
  if m.any (fun p => p.1 = k) then
    m.map (fun p => if p.1 = k then (k, v) else p)
  else m ++ [(k, v)]

/-- Effect oracle for `Linker.LinkSkill`: the home directory, whether the
managed skill directory exists, whether the target directory can be
created, and the link timestamp.  The context is modelled as never
cancelled, and the project path is taken to be absolute already, so that
`filepath.Abs` is the identity on it. -/
structure LinkOracle where
  homeDir : String
  skillDirPresent : Bool
  mkdirOk : Bool
  now : Nat
deriving Repr, DecidableEq

/-- `Linker.LinkSkill`: validate the names, resolve the managed skill path,
refuse an existing target path, create the symlink, then look the record up
by name and persist the new `linkedProjects` entry keyed by the absolute
project path; when the registry lookup or update fails after the symlink
was created, the symlink is removed again (compensating rollback). -/
def LinkSkill (st : LinkerState) (o : LinkOracle)
    (skillName projectPath : String) : Except String Unit × LinkerState :=
  if skillName = "" then (.error "skill name cannot be empty", st)
  else if projectPath = "" then (.error "project path cannot be empty", st)
  else if ¬ o.skillDirPresent then
    (.error ("skill not found in managed skills: " ++ skillName), st)
  else
    let skillPath := o.homeDir ++ "/.gskills/skills/" ++ skillName
    let targetPath := projectPath ++ "/" ++ opencodeSkillsDir ++ "/" ++ skillName
    if st.symlinks.any (fun p => p.1 = targetPath) then
      (.error ("skill already linked in project: " ++ projectPath), st)
    else if ¬ o.mkdirOk then (.error "failed to create target directory", st)
    else
      let fs1 := st.symlinks ++ [(targetPath, skillPath)]
      match FindSkillByName st.registry skillName with
      | .error e =>
        (.error ("failed to find skill in registry: " ++ e),
          { st with symlinks := fs1.filter (fun p => p.1 ≠ targetPath) })
      | .ok skill =>
        let skill2 := { skill with
          linkedProjects := lpInsert skill.linkedProjects projectPath
            { symlinkPath := targetPath, linkedAt := o.now },
          updatedAt := o.now }
        match UpdateSkill st.registry skill2 with
        | .error e =>
          (.error ("failed to update skills registry: " ++ e),
            { st with symlinks := fs1.filter (fun p => p.1 ≠ targetPath) })
        | .ok reg2 => (.ok (), { registry := reg2, symlinks := fs1 })

/-- `Linker.UnlinkSkill`: validate the names, find the record, require the
project to be present in `linkedProjects`, remove the recorded symlink path
from disk (`os.Remove` succeeds exactly when the path is present), delete
the map entry — Go sets the map to nil when it becomes empty, which the
empty list plays here — stamp `updatedAt` and persist via `UpdateSkill`. -/
def UnlinkSkill (st : LinkerState) (now : Nat)
    (skillName projectPath : String) : Except String Unit × LinkerState :=
  if skillName = "" then (.error "skill name cannot be empty", st)
  else if projectPath = "" then (.error "project path cannot be empty", st)
  else
    match FindSkillByName st.registry skillName with
    | .error _ =>
      (.error ("skill not found in registry: " ++ skillName), st)
    | .ok skill =>
      if skill.linkedProjects.isEmpty then
        (.error ("skill is not linked to any projects: " ++ skillName), st)
      else
        match skill.linkedProjects.find? (fun p => p.1 = projectPath) with
        | none =>
          (.error ("skill is not linked to project: " ++ projectPath), st)
        | some entry =>
          if st.symlinks.any (fun p => p.1 = entry.2.symlinkPath) then
            let fs1 := st.symlinks.filter (fun p => p.1 ≠ entry.2.symlinkPath)
            let lp2 := skill.linkedProjects.filter (fun p => p.1 ≠ projectPath)
            let skill2 := { skill with linkedProjects := lp2, updatedAt := now }
            match UpdateSkill st.registry skill2 with
            | .error e => (.error e, { st with symlinks := fs1 })
            | .ok reg2 => (.ok (), { registry := reg2, symlinks := fs1 })
          else (.error "failed to remove symlink", st)

/-- A record already linked to project p0, for the C9 counterexample. -/
def skillPre : SkillMetadata :=
  { skillA with linkedProjects :=
      [("/proj/p0",
        { symlinkPath := "/proj/p0/.opencode/skills/alpha", linkedAt := 0 })] }

/-- Initial state for the C9 counterexample: `skillPre` registered, its p0
symlink on disk. -/
def linkSt0 : LinkerState :=
  { registry := [skillPre],
    symlinks :=
      [("/proj/p0/.opencode/skills/alpha", "/home/u/.gskills/skills/alpha")] }

/-- Oracle for the C9 counterexample. -/
def linkO0 : LinkOracle :=
  { homeDir := "/home/u", skillDirPresent := true, mkdirOk := true, now := 5 }

/-- Registry state after linking p1 in the C9 counterexample. -/
def linkSt1 : LinkerState :=
  { registry := [{ skillPre with
      linkedProjects :=
        [("/proj/p0",
          { symlinkPath := "/proj/p0/.opencode/skills/alpha", linkedAt := 0 }),
         ("/proj/p1",
          { symlinkPath := "/proj/p1/.opencode/skills/alpha", linkedAt := 5 })],
      updatedAt := 5 }],
    symlinks :=
      [("/proj/p0/.opencode/skills/alpha", "/home/u/.gskills/skills/alpha"),
       ("/proj/p1/.opencode/skills/alpha", "/home/u/.gskills/skills/alpha")] }

/-- State after the subsequent unlink of p1 in the C9 counterexample: the
p0 entry survives. -/
def linkSt2 : LinkerState :=
  { registry := [{ skillPre with
      linkedProjects :=
        [("/proj/p0",
          { symlinkPath := "/proj/p0/.opencode/skills/alpha", linkedAt := 0 })],
      updatedAt := 6 }],
    symlinks :=
      [("/proj/p0/.opencode/skills/alpha", "/home/u/.gskills/skills/alpha")] }

/-- Claim C9 counterexample: for a bundle already linked to another project
(p0), a successful link of project p1 followed immediately by an unlink of
the same pair leaves the earlier p0 entry in `linkedProjects` — the map is
neither empty nor absent afterwards. -/
theorem link_unlink_keeps_other_links :
    LinkSkill linkSt0 linkO0 "alpha" "/proj/p1" = (.ok (), linkSt1) ∧
    UnlinkSkill linkSt1 6 "alpha" "/proj/p1" = (.ok (), linkSt2) ∧
    (linkSt2.registry.map (fun s => s.linkedProjects)).head? =
      some [("/proj/p0",
        { symlinkPath := "/proj/p0/.opencode/skills/alpha", linkedAt := 0 })] := by
  refine ⟨by decide, by decide, by decide⟩

theorem find?_append_cons {α : Type} (p : α → Bool) (pre post : List α) (x : α)
    (hpre : ∀ t ∈ pre, p t = false) (hx : p x = true) :
    (pre ++ x :: post).find? p = some x := by
  induction pre with
  | nil => simp [List.find?_cons_of_pos, hx]
  | cons y ys ih =>
    have hy := hpre y (by simp)
    rw [List.cons_append, List.find?_cons_of_neg _ (by simp [hy])]
    exact ih fun t ht => hpre t (by simp [ht])

theorem replaceFirstById_append_cons (pre post : List SkillMetadata)
    (x s : SkillMetadata) (hpre : ∀ t ∈ pre, t.id ≠ s.id) (hx : x.id = s.id) :
    replaceFirstById (pre ++ x :: post) s = some (pre ++ s :: post) := by
  induction pre with
  | nil => simp [replaceFirstById, hx]
  | cons y ys ih =>
    have hy : y.id ≠ s.id := hpre y (by simp)
    rw [List.cons_append, List.cons_append]
    simp only [replaceFirstById, if_neg hy]
    rw [ih fun t ht => hpre t (by simp [ht])]
    rfl

/-- Claim C9 as amended: for a bundle present in the registry and on disk
whose `linkedProjects` starts out empty, and a valid absolute project path
whose target link path is free, a successful `LinkSkill` followed
immediately by `UnlinkSkill` for the same pair leaves the bundle's
`linkedProjects` empty (Go nil), restores the symlinks on disk to exactly
the pre-link set, and leaves every other record untouched.  (When the
bundle was already linked to other projects, those entries survive, so the
map is only guaranteed to shed the new entry, not to become empty.) -/
theorem link_then_unlink_roundtrip (st : LinkerState) (o : LinkOracle)
    (pre post : List SkillMetadata) (skill : SkillMetadata)
    (skillName projectPath : String) (now2 : Nat)
    (hname : skillName ≠ "") (hpath : projectPath ≠ "")
    (hreg : st.registry = pre ++ skill :: post)
    (hsname : skill.name = skillName) (hsid : skill.id ≠ "")
    (hpreName : ∀ t ∈ pre, t.name ≠ skillName)
    (hpreId : ∀ t ∈ pre, t.id ≠ skill.id)
    (hlp : skill.linkedProjects = [])
    (hdir : o.skillDirPresent = true) (hmk : o.mkdirOk = true)
    (hfree : ∀ q ∈ st.symlinks,
      q.1 ≠ projectPath ++ "/" ++ opencodeSkillsDir ++ "/" ++ skillName) :
    ∃ st1 st2 : LinkerState,
      LinkSkill st o skillName projectPath = (.ok (), st1) ∧
      UnlinkSkill st1 now2 skillName projectPath = (.ok (), st2) ∧
      st2.registry =
        pre ++ { skill with linkedProjects := [], updatedAt := now2 } :: post ∧
      st2.symlinks = st.symlinks ∧
      FindSkillByName st2.registry skillName =
        .ok { skill with linkedProjects := [], updatedAt := now2 } := by
  set targetPath := projectPath ++ "/" ++ opencodeSkillsDir ++ "/" ++ skillName
    with htp
  set skillPath := o.homeDir ++ "/.gskills/skills/" ++ skillName with hsp
  have hany : st.symlinks.any (fun p => p.1 = targetPath) = false := by
    rw [List.any_eq_false]
    intro q hq
    simpa using hfree q hq
  have hfind : FindSkillByName st.registry skillName = .ok skill := by
    rw [FindSkillByName, if_neg hname, hreg,
      find?_append_cons _ pre post skill
        (fun t ht => by simpa using hpreName t ht) (by simpa using hsname)]
  set skill2 : SkillMetadata := { skill with
      linkedProjects := [(projectPath,
        { symlinkPath := targetPath, linkedAt := o.now })],
      updatedAt := o.now } with hs2
  have hlpIns : lpInsert skill.linkedProjects projectPath
      { symlinkPath := targetPath, linkedAt := o.now } =
      [(projectPath, { symlinkPath := targetPath, linkedAt := o.now })] := by
    rw [hlp]; rfl
  have hupd1 : UpdateSkill st.registry skill2 = .ok (pre ++ skill2 :: post) := by
    rw [UpdateSkill, if_neg (by simpa [hs2] using hsid), hreg,
      replaceFirstById_append_cons pre post skill skill2 hpreId rfl]
  have hlink : LinkSkill st o skillName projectPath =
      (.ok (), { registry := pre ++ skill2 :: post,
                 symlinks := st.symlinks ++ [(targetPath, skillPath)] }) := by
    simp only [LinkSkill, ← htp, ← hsp]
    rw [if_neg hname, if_neg hpath, if_neg (by simp [hdir]),
      if_neg (by simp [hany]), if_neg (by simp [hmk]), hfind]
    simp only [hlpIns, ← hs2, hupd1]
  refine Exists.intro
    { registry := pre ++ skill2 :: post,
      symlinks := st.symlinks ++ [(targetPath, skillPath)] } ?_
  refine Exists.intro
    { registry :=
        pre ++ ({ skill2 with linkedProjects := [], updatedAt := now2 }) :: post,
      symlinks := st.symlinks } ?_
  refine ⟨hlink, ?_, ?_, ?_, ?_⟩
  · have hfind2 : FindSkillByName (pre ++ skill2 :: post) skillName =
        .ok skill2 := by
      rw [FindSkillByName, if_neg hname,
        find?_append_cons _ pre post skill2
          (fun t ht => by simpa using hpreName t ht)
          (by simpa [hs2] using hsname)]
    have hne : skill2.linkedProjects.isEmpty = false := by simp [hs2]
    have hfound : skill2.linkedProjects.find? (fun p => p.1 = projectPath) =
        some (projectPath, { symlinkPath := targetPath, linkedAt := o.now }) := by
      simp [hs2]
    have hanylink : ((st.symlinks ++ [(targetPath, skillPath)]).any
        (fun p => p.1 = targetPath)) = true := by
      simp [List.any_append]
    have hfilter : (st.symlinks ++ [(targetPath, skillPath)]).filter
        (fun p => p.1 ≠ targetPath) = st.symlinks := by
      rw [List.filter_append]
      have h1 : st.symlinks.filter (fun p => p.1 ≠ targetPath) = st.symlinks :=
        List.filter_eq_self.mpr (fun q hq => by simpa using hfree q hq)
      have h2 : ([(targetPath, skillPath)].filter
          (fun p => p.1 ≠ targetPath) : List (String × String)) = [] := by
        simp
      rw [h1, h2, List.append_nil]
    have hlp2 : skill2.linkedProjects.filter (fun p => p.1 ≠ projectPath) =
        ([] : List (String × LinkedProjectInfo)) := by
      simp [hs2]
    have hupd2 : UpdateSkill (pre ++ skill2 :: post)
        { skill2 with linkedProjects := [], updatedAt := now2 } =
        .ok (pre ++ { skill2 with linkedProjects := [], updatedAt := now2 }
          :: post) := by
      rw [UpdateSkill, if_neg (by simpa [hs2] using hsid),
        replaceFirstById_append_cons pre post skill2
          { skill2 with linkedProjects := [], updatedAt := now2 }
          (fun t ht => by simpa [hs2] using hpreId t ht) rfl]
    simp only [UnlinkSkill, if_neg hname, if_neg hpath, hfind2, hne,
      Bool.false_eq_true, if_false, hfound, hanylink, if_true, hfilter,
      hlp2, hupd2]
  · rfl
  · rfl
  · rw [FindSkillByName, if_neg hname,
      find?_append_cons _ pre post _
        (fun t ht => by simpa using hpreName t ht) (by simpa using hsname)]

/-- A fresh never-linked state for the C9 witness. -/
def linkStW : LinkerState := { registry := [skillB, skillA], symlinks := [] }

theorem link_then_unlink_roundtrip_witness :
    ∃ st1 st2 : LinkerState,
      LinkSkill linkStW linkO0 "alpha" "/proj/p1" = (.ok (), st1) ∧
      UnlinkSkill st1 7 "alpha" "/proj/p1" = (.ok (), st2) ∧
      st2.registry =
        [skillB] ++ { skillA with linkedProjects := [], updatedAt := 7 } :: [] ∧
      st2.symlinks = linkStW.symlinks ∧
      FindSkillByName st2.registry "alpha" =
        .ok { skillA with linkedProjects := [], updatedAt := 7 } :=
  link_then_unlink_roundtrip linkStW linkO0 [skillB] [] skillA "alpha"
    "/proj/p1" 7 (by decide) (by decide) rfl rfl (by decide)
    (by intro t ht; fin_cases ht; decide)
    (by intro t ht; fin_cases ht; decide)
    rfl rfl rfl (by intro q hq; simp [linkStW] at hq)

end GSkills
